import Mathlib

/-!
Shallow embedding of `src/lambda_sqs_etl.py`, a three-stage ETL pipeline:

* `handler_list_pages` (Enumerator) walks a bucket's key space, sends pages of
  exactly 1000 keys to a queue, and checkpoints a `bookmark` so an external
  state machine can re-invoke it when the time budget runs out;
* `handler_split_page` (Splitter) chunks a page into batches of 10 keys and
  bulk-sends each batch;
* `handler_transform` (Transformer) reads each source object, flattens every
  JSON line, writes the result to the destination bucket and emits metrics.

External collaborators (S3, SQS, CloudWatch, `json.loads`/`json.dumps`) are
modelled as injected functions; the repository's own logic (loop structure,
page buffering, bookmarking, chunking, `flatten`, error propagation by
uncaught exceptions) is translated line by line.
-/

/-- The Enumerator's invocation state `event`: the optional `bookmark` key and
the `all_pages_listed` flag (the strings `'TRUE'`/`'FALSE'` in the Python are
modelled as `Bool`). -/
structure ListEvent (K : Type) where
  bookmark : Option K
  all_pages_listed : Bool
  deriving DecidableEq, Repr

/-- `bucket.objects.filter(Marker=bookmark)`: S3 lists the bucket's keys in
their stable lexicographic order, starting strictly after `Marker` when one is
given.  `keys` is the bucket's full sorted key listing; with a bookmark the
scan yields exactly the keys strictly greater than it. -/
def scanFrom {K : Type} [LinearOrder K] (keys : List K) : Option K → List K
  | none => keys
  | some b => keys.filter (fun k => decide (b < k))

/-- The body of the Enumerator's `for s3object in ...` loop.  `sent` holds the
pages sent to the queue so far, `page` is the in-memory buffer, `budget` is
the number of keys for which `context.get_remaining_time_in_millis()` still
exceeds the 30-second margin (it is checked before each key is handled; once
exhausted the handler returns the event as-is, without flushing `page`).
Appending a key updates the buffer, flushes it as one queue message when it
reaches exactly 1000 keys, and then sets `event['bookmark']` to that key.
When the scan ends, a non-empty remainder buffer is flushed and
`all_pages_listed` is set to TRUE. -/
def listLoop {K : Type} (sent : List (List K)) (page : List K) (ev : ListEvent K) :
    Nat → List K → List (List K) × ListEvent K
  | _, [] =>
    (if page.isEmpty then sent else sent ++ [page], ⟨ev.bookmark, true⟩)
  | 0, _ :: _ => (sent, ev)
  | budget + 1, k :: rest =>
    let page1 := page ++ [k]
    if page1.length = 1000 then
      listLoop (sent ++ [page1]) [] ⟨some k, ev.all_pages_listed⟩ budget rest
    else
      listLoop sent page1 ⟨some k, ev.all_pages_listed⟩ budget rest

/-- `handler_list_pages(event, context)`: sets `all_pages_listed = 'FALSE'`,
reads the bookmark from the event, and scans the bucket starting after it.
Returns the pages sent to the Pages queue during this invocation together
with the returned event. -/
def handler_list_pages {K : Type} [LinearOrder K] (keys : List K) (ev : ListEvent K)
    (budget : Nat) : List (List K) × ListEvent K :=
  listLoop [] [] ⟨ev.bookmark, false⟩ budget (scanFrom keys ev.bookmark)

/-- The external state machine: re-invokes `handler_list_pages`, feeding each
returned event back as the next input, until `all_pages_listed` is TRUE (or
the given per-invocation budgets run out).  Returns all pages sent across the
run and the final event. -/
def driveEnumerator {K : Type} [LinearOrder K] (keys : List K) :
    List Nat → ListEvent K → List (List K) × ListEvent K
  | [], ev => ([], ev)
  | b :: rest, ev =>
    let out := handler_list_pages keys ev b
    if out.2.all_pages_listed then out
    else
      let next := driveEnumerator keys rest out.2
      (out.1 ++ next.1, next.2)

/-- `chunks(l, n)`: the successive slices `l[i:i+n]` for
`i in range(0, len(l), n)` (the code only calls it with `n = 10`).  That
range has `⌈len(l)/n⌉ = (len(l) + n - 1) / n` elements and its `i`-th
member is `i * n`; the slice `l[j:j+n]` is `(l.drop j).take n`. -/
def chunksList {α : Type} (l : List α) (n : Nat) : List (List α) :=
  (List.range ((l.length + n - 1) / n)).map (fun i => (l.drop (i * n)).take n)

/-- One bulk send per batch, in order: `send_messages` either succeeds or
raises (modelled by `sendOk`); an exception aborts the whole handler, so the
remaining batches are never attempted.  Returns the list of batches on which
`send_messages` was actually called and whether the loop completed without an
exception. -/
def sendBatches (sendOk : List String → Bool) : List (List String) → List (List String) × Bool
  | [] => ([], true)
  | b :: rest =>
    if sendOk b then
      let out := sendBatches sendOk rest
      (b :: out.1, out.2)
    else ([b], false)

/-- `handler_split_page(event, context)`: for each record of the event, parse
the page (the records are given already decoded from JSON) and bulk-send it
in chunks of 10.  An exception raised by any `send_messages` call propagates
and aborts the remaining batches and pages.  Returns the batches attempted
and whether the invocation succeeded.  (The per-message uuid `Id`s are queue
bookkeeping and are not modelled.) -/
def handler_split_page (sendOk : List String → Bool) :
    List (List String) → List (List String) × Bool
  | [] => ([], true)
  | page :: rest =>
    let out := sendBatches sendOk (chunksList page 10)
    if out.2 then
      let next := handler_split_page sendOk rest
      (out.1 ++ next.1, next.2)
    else (out.1, false)

/-- JSON values as produced by `json.loads`: a nested key→value mapping is
`obj` (Python preserves insertion order of keys, hence an association list);
numbers, strings, booleans, null and arrays are the non-mapping values. -/
inductive J where
  | num : Int → J
  | str : String → J
  | bool : Bool → J
  | null : J
  | arr : List J → J
  | obj : List (String × J) → J

/-- `isinstance(v, collections.MutableMapping)`. -/
def isObj : J → Bool
  | J.obj _ => true
  | _ => false

mutual
/-- The loop body of `flatten(d, parent_key, sep='.')`: for each `(k, v)` of
`d.items()`, `new_key = parent_key + sep + k if parent_key else k` (Python
truthiness: any non-empty `parent_key`); a mapping value is recursed into and
its items extended onto the result, any other value is appended as a leaf.
This is the `items` list the Python builds before its final `dict(items)`. -/
def flattenItems (parent_key : String) : List (String × J) → List (String × J)
  | [] => []
  | (k, v) :: rest =>
    let new_key := if parent_key = "" then k else parent_key ++ "." ++ k
    flattenOne new_key v ++ flattenItems parent_key rest

/-- Dispatch on `isinstance(v, collections.MutableMapping)` for one value. -/
def flattenOne (new_key : String) : J → List (String × J)
  | J.obj kvs => flattenItems new_key kvs
  | v => [(new_key, v)]
end

/-- Inserting one pair into a Python dict under construction: an existing key
keeps its position but takes the new value, a new key is appended. -/
def dictInsert (acc : List (String × J)) (k : String) (v : J) : List (String × J) :=
  if acc.any (fun p => p.1 = k) then
    acc.map (fun p => if p.1 = k then (k, v) else p)
  else acc ++ [(k, v)]

/-- `dict(items)`: first-occurrence order, last-write-wins values. -/
def pyDict (items : List (String × J)) : List (String × J) :=
  items.foldl (fun acc p => dictInsert acc p.1 p.2) []

/-- `flatten(d, parent_key='', sep='.')` (the code always uses the defaults):
the flat dict built from the collected items. -/
def flatten (d : List (String × J)) (parent_key : String) : List (String × J) :=
  pyDict (flattenItems parent_key d)

/-- Joining a path of ancestor keys with the separator `"."`, as the spec
describes compound keys. -/
def joinDot : List String → String
  | [] => ""
  | [k] => k
  | k :: rest => k ++ "." ++ joinDot rest

mutual
/-- Modelled from the spec: the leaves of a nested mapping, each paired with
its path of ancestor keys — "every leaf value (any value that is not itself a
nested mapping)" with "the path of ancestor keys".  Used only to compare
`flatten` against the spec's description. -/
def specLeavesL (d : List (String × J)) (pre : List String) : List (List String × J) :=
  match d with
  | [] => []
  | (k, v) :: rest => specLeavesJ v (pre ++ [k]) ++ specLeavesL rest pre

/-- Modelled from the spec: the leaves of one value at a given path. -/
def specLeavesJ (v : J) (pre : List String) : List (List String × J) :=
  match v with
  | J.obj kvs => specLeavesL kvs pre
  | v => [(pre, v)]
end

mutual
/-- Every key of the mapping, at every nesting level, is a non-empty string. -/
def keysNonemptyL : List (String × J) → Bool
  | [] => true
  | (k, v) :: rest => !(k = "") && keysNonemptyJ v && keysNonemptyL rest

/-- Keys of all mappings nested inside one value are non-empty. -/
def keysNonemptyJ : J → Bool
  | J.obj kvs => keysNonemptyL kvs
  | _ => true
end

/-- The destination bucket's contents, by key. -/
def Store : Type := String → Option String

/-- The Transformer's external collaborators: `sourceGet key` models
`s3.Object(source, key).get()['Body'].read().splitlines()` (the source
object's lines, or a raised exception); `parse` is `json.loads` on one line;
`dumps` is `json.dumps` of a flat dict; `putOk`/`metricsOk` tell whether
`destination.put` and `cloudwatch.put_metric_data` succeed for a key or
raise. -/
structure TransformEnv where
  sourceGet : String → Except String (List String)
  parse : String → Except String J
  dumps : List (String × J) → String
  putOk : String → Bool
  metricsOk : String → Bool

/-- `json.dumps(flatten(json.loads(line)))` for one line: parsing may raise,
and `flatten` raises (an `AttributeError` on `d.items()`) when the parsed
value is not a mapping. -/
def transformLine (env : TransformEnv) (line : String) : Except String String :=
  match env.parse line with
  | Except.error e => Except.error e
  | Except.ok (J.obj kvs) => Except.ok (env.dumps (flatten kvs ""))
  | Except.ok _ => Except.error "flatten: not a mapping"

/-- The list comprehension `[transformLine(line) for line in lines]`:
left to right, aborting on the first raised exception. -/
def mapExcept (f : String → Except String String) : List String → Except String (List String)
  | [] => Except.ok []
  | a :: rest =>
    match f a with
    | Except.error e => Except.error e
    | Except.ok b =>
      match mapExcept f rest with
      | Except.error e => Except.error e
      | Except.ok bs => Except.ok (b :: bs)

/-- The body of the Transformer's per-record loop for one key: read the
source object's lines, transform every line (all of them, before any write),
`put` the `'\n'.join(items)` to the destination object at the same key (a
full atomic overwrite), then emit the CloudWatch metrics.  Returns the
destination store after the step and `some` error when an exception was
raised at that point (a raised exception leaves already-performed writes in
place). -/
def processKey (env : TransformEnv) (dest : Store) (key : String) : Store × Option String :=
  match env.sourceGet key with
  | Except.error e => (dest, some e)
  | Except.ok lines =>
    match mapExcept (transformLine env) lines with
    | Except.error e => (dest, some e)
    | Except.ok items =>
      if env.putOk key then
        let dest1 : Store := fun k => if k = key then some (String.intercalate "\n" items) else dest k
        if env.metricsOk key then (dest1, none) else (dest1, some "put_metric_data failed")
      else (dest, some "put failed")

/-- `handler_transform(event, context)`: process each record's key in order;
an uncaught exception aborts the remaining records and fails the invocation
(`some` error), leaving the destination store as it was at that point. -/
def runTransform (env : TransformEnv) (dest : Store) : List String → Store × Option String
  | [] => (dest, none)
  | key :: rest =>
    match processKey env dest key with
    | (dest1, none) => runTransform env dest1 rest
    | (dest1, some e) => (dest1, some e)

/-- The chunks of a list cover it exactly: concatenating the successive
slices `l[i:i+10]` gives back `l`. -/
theorem chunksList_flatten_ten {α : Type} (l : List α) : (chunksList l 10).flatten = l := by
  have aux : ∀ k, ((List.range k).map (fun i => (l.drop (i * 10)).take 10)).flatten
      = l.take (k * 10) := by
    intro k
    induction k with
    | zero => simp
    | succ m ih =>
      rw [List.range_succ, List.map_append, List.flatten_append, ih]
      simp only [List.map_cons, List.map_nil, List.flatten_cons, List.flatten_nil, List.append_nil]
      rw [Nat.succ_mul, List.take_add]
  have hlen : l.length ≤ ((l.length + 10 - 1) / 10) * 10 := by omega
  rw [chunksList, aux, List.take_of_length_le hlen]

/-- Every chunk produced by `chunks(l, 10)` is non-empty and has at most
10 elements. -/
theorem chunksList_mem_ten {α : Type} (l : List α) (b : List α)
    (hb : b ∈ chunksList l 10) : 0 < b.length ∧ b.length ≤ 10 := by
  rw [chunksList] at hb
  obtain ⟨i, hi, rfl⟩ := List.mem_map.mp hb
  rw [List.mem_range] at hi
  simp only [List.length_take, List.length_drop]
  omega

/-- When every bulk send succeeds, all batches are sent in order and the
loop completes. -/
theorem sendBatches_all_ok (sendOk : List String → Bool) (bs : List (List String))
    (h : ∀ b ∈ bs, sendOk b = true) : sendBatches sendOk bs = (bs, true) := by
  induction bs with
  | nil => rfl
  | cons b rest ih =>
    have hb := h b (List.mem_cons_self b rest)
    have hr : ∀ x ∈ rest, sendOk x = true := fun x hx => h x (List.mem_cons_of_mem b hx)
    simp [sendBatches, hb, ih hr]

/-- A raised `send_messages` stops the batch loop: the batches before the
failing one and the failing one itself are the only ones attempted. -/
theorem sendBatches_abort (sendOk : List String → Bool) (pre post : List (List String)) (b : List String)
    (hpre : ∀ x ∈ pre, sendOk x = true) (hb : sendOk b = false) :
    sendBatches sendOk (pre ++ b :: post) = (pre ++ [b], false) := by
  induction pre with
  | nil => simp [sendBatches, hb]
  | cons x xs ih =>
    have hx := hpre x (List.mem_cons_self x xs)
    have hxs : ∀ y ∈ xs, sendOk y = true := fun y hy => hpre y (List.mem_cons_of_mem x hy)
    simp [sendBatches, hx, ih hxs]

/-- C4: for a page of `K` keys with `1 ≤ K ≤ 1000` and all bulk sends
succeeding, `handler_split_page` performs exactly the `⌈K/10⌉` bulk-send
calls given by `chunks(page, 10)`, each call carrying at most 10 (and at
least 1) messages, and the calls' keys are the page's keys, in order,
each exactly once. -/
theorem c4_split_page_correct (sendOk : List String → Bool) (page : List String)
    (h1 : 1 ≤ page.length) (h2 : page.length ≤ 1000)
    (hOk : ∀ b, sendOk b = true) :
    handler_split_page sendOk [page] = (chunksList page 10, true) ∧
    (chunksList page 10).length = (page.length + 9) / 10 ∧
    (∀ b ∈ chunksList page 10, 0 < b.length ∧ b.length ≤ 10) ∧
    (chunksList page 10).flatten = page := by
  refine ⟨?_, ?_, fun b hb => chunksList_mem_ten page b hb, chunksList_flatten_ten page⟩
  · have h := sendBatches_all_ok sendOk (chunksList page 10) (fun b _ => hOk b)
    simp [handler_split_page, h]
  · rw [chunksList]
    simp only [List.length_map, List.length_range]
    omega

/-- Witness for C4 at the spec's scenario: a page of 7 keys yields exactly
one bulk-send call carrying the 7 keys. -/
theorem c4_split_page_correct_witness :
    handler_split_page (fun _ => true) [["a", "b", "c", "d", "e", "f", "g"]] =
      (chunksList ["a", "b", "c", "d", "e", "f", "g"] 10, true) ∧
    (chunksList ["a", "b", "c", "d", "e", "f", "g"] 10).length = (7 + 9) / 10 ∧
    (∀ b ∈ chunksList ["a", "b", "c", "d", "e", "f", "g"] 10, 0 < b.length ∧ b.length ≤ 10) ∧
    (chunksList ["a", "b", "c", "d", "e", "f", "g"] 10).flatten =
      ["a", "b", "c", "d", "e", "f", "g"] :=
  c4_split_page_correct (fun _ => true) ["a", "b", "c", "d", "e", "f", "g"]
    (by decide) (by decide) (fun _ => rfl)

/-- C2 fails on the code: with a page of 20 keys whose first batch's bulk
send raises, the handler attempts only the first batch; the second
sub-sequence of the same page is never attempted. -/
theorem c2_counterexample_send_failure :
    (handler_split_page (fun bt => !(bt.contains "a"))
        [["a", "b", "c", "d", "e", "f", "g", "h", "i", "j",
          "k", "l", "m", "n", "o", "p", "q", "r", "s", "t"]]).1 =
      [["a", "b", "c", "d", "e", "f", "g", "h", "i", "j"]] ∧
    ["k", "l", "m", "n", "o", "p", "q", "r", "s", "t"] ∉
      (handler_split_page (fun bt => !(bt.contains "a"))
        [["a", "b", "c", "d", "e", "f", "g", "h", "i", "j",
          "k", "l", "m", "n", "o", "p", "q", "r", "s", "t"]]).1 := by
  decide

/-- C2 amended: a bulk send that raises aborts the invocation: the batches
attempted are exactly those before the failing one plus the failing one;
the remaining sub-sequences of the page and all later pages are not
attempted, and the invocation fails (retry is left to redelivery of the
whole message). -/
theorem c2_send_failure_aborts (sendOk : List String → Bool) (page : List String)
    (pages : List (List String)) (pre post : List (List String)) (b : List String)
    (hsplit : chunksList page 10 = pre ++ b :: post)
    (hpre : ∀ x ∈ pre, sendOk x = true) (hb : sendOk b = false) :
    handler_split_page sendOk (page :: pages) = (pre ++ [b], false) := by
  have h := sendBatches_abort sendOk pre post b hpre hb
  simp [handler_split_page, hsplit, h]

/-- Witness for the amended C2 on the 20-key page whose first batch fails:
only that batch is attempted, over a multi-page invocation. -/
theorem c2_send_failure_aborts_witness :
    handler_split_page (fun bt => !(bt.contains "a"))
      [["a", "b", "c", "d", "e", "f", "g", "h", "i", "j",
        "k", "l", "m", "n", "o", "p", "q", "r", "s", "t"], ["u", "v"]] =
      ([["a", "b", "c", "d", "e", "f", "g", "h", "i", "j"]], false) :=
  c2_send_failure_aborts (fun bt => !(bt.contains "a"))
    ["a", "b", "c", "d", "e", "f", "g", "h", "i", "j",
     "k", "l", "m", "n", "o", "p", "q", "r", "s", "t"] [["u", "v"]]
    [] [["k", "l", "m", "n", "o", "p", "q", "r", "s", "t"]]
    ["a", "b", "c", "d", "e", "f", "g", "h", "i", "j"]
    (by decide) (fun x hx => absurd hx (List.not_mem_nil x)) (by decide)

/-- A property holding on the remaining scan, the page buffer and the pages
already sent holds on every page the listing loop ends up sending: the loop
only ever sends pages built from buffered and scanned keys. -/
theorem listLoop_sent_forall {K : Type} (P : K → Prop)
    (l : List K) (budget : Nat) (sent : List (List K)) (page : List K) (ev : ListEvent K)
    (hsent : ∀ p ∈ sent, ∀ k ∈ p, P k) (hpage : ∀ k ∈ page, P k) (hl : ∀ k ∈ l, P k) :
    ∀ p ∈ (listLoop sent page ev budget l).1, ∀ k ∈ p, P k := by
  induction l generalizing budget sent page ev with
  | nil =>
    intro p hp k hk
    simp only [listLoop] at hp
    split at hp
    · exact hsent p hp k hk
    · rcases List.mem_append.mp hp with h | h
      · exact hsent p h k hk
      · rw [List.mem_singleton] at h
        subst h
        exact hpage k hk
  | cons a rest ih =>
    have ha : P a := hl a (List.mem_cons_self a rest)
    have hrest : ∀ k ∈ rest, P k := fun k hk => hl k (List.mem_cons_of_mem a hk)
    cases budget with
    | zero =>
      intro p hp k hk
      simp only [listLoop] at hp
      exact hsent p hp k hk
    | succ b =>
      simp only [listLoop]
      split
      · refine ih b (sent ++ [page ++ [a]]) [] ⟨some a, ev.all_pages_listed⟩ ?_ ?_ hrest
        · intro p hp k hk
          rcases List.mem_append.mp hp with h | h
          · exact hsent p h k hk
          · rw [List.mem_singleton] at h
            subst h
            rcases List.mem_append.mp hk with h2 | h2
            · exact hpage k h2
            · rw [List.mem_singleton] at h2
              subst h2
              exact ha
        · intro k hk
          cases hk
      · refine ih b sent (page ++ [a]) ⟨some a, ev.all_pages_listed⟩ hsent ?_ hrest
        intro k hk
        rcases List.mem_append.mp hk with h2 | h2
        · exact hpage k h2
        · rw [List.mem_singleton] at h2
          subst h2
          exact ha

/-- If the pages sent so far are non-empty with at most 1000 keys and the
buffer is strictly below 1000, the same holds for every page the loop sends:
pages are flushed exactly at 1000 keys, or as a non-empty remainder. -/
theorem listLoop_sent_sizes {K : Type}
    (l : List K) (budget : Nat) (sent : List (List K)) (page : List K) (ev : ListEvent K)
    (hsent : ∀ p ∈ sent, 0 < p.length ∧ p.length ≤ 1000) (hpage : page.length < 1000) :
    ∀ p ∈ (listLoop sent page ev budget l).1, 0 < p.length ∧ p.length ≤ 1000 := by
  induction l generalizing budget sent page ev with
  | nil =>
    intro p hp
    simp only [listLoop] at hp
    split at hp
    · exact hsent p hp
    · rcases List.mem_append.mp hp with h | h
      · exact hsent p h
      · rw [List.mem_singleton] at h
        subst h
        rename_i hne
        rw [List.isEmpty_iff] at hne
        have : p ≠ [] := hne
        have h0 : 0 < p.length := List.length_pos.mpr this
        exact ⟨h0, le_of_lt hpage⟩
  | cons a rest ih =>
    cases budget with
    | zero =>
      intro p hp
      simp only [listLoop] at hp
      exact hsent p hp
    | succ b =>
      simp only [listLoop]
      split
      · rename_i hflush
        refine ih b (sent ++ [page ++ [a]]) [] ⟨some a, ev.all_pages_listed⟩ ?_ (by simp)
        intro p hp
        rcases List.mem_append.mp hp with h | h
        · exact hsent p h
        · rw [List.mem_singleton] at h
          subst h
          rw [hflush]
          exact ⟨by omega, by omega⟩
      · rename_i hfl
        refine ih b sent (page ++ [a]) ⟨some a, ev.all_pages_listed⟩ hsent ?_
        have : (page ++ [a]).length = page.length + 1 := by simp
        omega

/-- C1 fails on the code: with bucket keys `[0, 1]`, a first invocation whose
time budget allows exactly one key, and an unconstrained second invocation,
the run finishes with `all_pages_listed = TRUE`, but the keys of the emitted
pages are `[1]` only — key `0` was accepted into the page buffer and
bookmarked, the yield returned without flushing the buffer, and the rescan
started strictly after the bookmark, so key `0` is in no page ever sent. -/
theorem c1_partial_page_keys_lost :
    (driveEnumerator [0, 1] [1, 100] ⟨none, false⟩).1.flatten = [1] ∧
    (driveEnumerator [0, 1] [1, 100] ⟨none, false⟩).2.all_pages_listed = true ∧
    (0 : Nat) ∈ [0, 1] ∧
    (0 : Nat) ∉ (driveEnumerator [0, 1] [1, 100] ⟨none, false⟩).1.flatten := by
  decide

/-- C6: an invocation resumed with bookmark `b` never re-emits `b` or any key
preceding it in the stable key order: every key of every page sent by that
invocation is strictly greater than `b`. -/
theorem c6_bookmark_resume_strict {K : Type} [LinearOrder K] (keys : List K)
    (b : K) (budget : Nat) (ev : ListEvent K) (hb : ev.bookmark = some b) :
    ∀ p ∈ (handler_list_pages keys ev budget).1, ∀ k ∈ p, b < k := by
  rw [handler_list_pages, hb]
  refine listLoop_sent_forall (fun k => b < k) _ _ _ _ _ ?_ ?_ ?_
  · intro p hp
    cases hp
  · intro k hk
    cases hk
  · intro k hk
    rw [scanFrom] at hk
    exact of_decide_eq_true (List.mem_filter.mp hk).2

/-- Witness for C6: resuming over the key space `[0, 1, 2]` with bookmark
`0`, the invocation emits the page `[1, 2]`, and the theorem applied to its
key `1` yields that it is strictly greater than the bookmark `0`. -/
theorem c6_bookmark_resume_strict_witness : (0 : Nat) < 1 :=
  c6_bookmark_resume_strict [0, 1, 2] 0 10 ⟨some 0, false⟩ rfl
    [1, 2] (by decide) 1 (by decide)

/-- C10: every page message the Enumerator sends is non-empty and carries at
most 1000 keys; on an empty key space no message is sent; and an invocation
whose time budget is already exhausted sends no message. -/
theorem c10_page_invariant {K : Type} [LinearOrder K] (keys : List K) (ev : ListEvent K)
    (budget : Nat) :
    (∀ p ∈ (handler_list_pages keys ev budget).1, 0 < p.length ∧ p.length ≤ 1000) ∧
    (keys = [] → (handler_list_pages keys ev budget).1 = []) ∧
    (budget = 0 → (handler_list_pages keys ev budget).1 = []) := by
  refine ⟨?_, ?_, ?_⟩
  · rw [handler_list_pages]
    refine listLoop_sent_sizes _ _ _ _ _ ?_ (by simp)
    intro p hp
    cases hp
  · intro hk
    subst hk
    rw [handler_list_pages]
    have hscan : scanFrom ([] : List K) ev.bookmark = [] := by
      cases ev.bookmark with
      | none => rfl
      | some b => rfl
    rw [hscan]
    simp [listLoop]
  · intro hb
    subst hb
    rw [handler_list_pages]
    cases hscan : scanFrom keys ev.bookmark with
    | nil => simp [listLoop]
    | cons a rest => simp [listLoop]

/-- Witness for C10 on the empty key space: zero messages are sent. -/
theorem c10_page_invariant_witness :
    (handler_list_pages ([] : List Nat) ⟨none, false⟩ 0).1 = [] :=
  (c10_page_invariant ([] : List Nat) ⟨none, false⟩ 0).2.1 rfl

/-- If any line of the list fails to transform, the whole comprehension
raises (with the first failing line's error). -/
theorem mapExcept_error (f : String → Except String String) (ls : List String)
    (h : ∃ l ∈ ls, ∃ e, f l = Except.error e) :
    ∃ e, mapExcept f ls = Except.error e := by
  induction ls with
  | nil =>
    obtain ⟨l, hl, _⟩ := h
    cases hl
  | cons a rest ih =>
    obtain ⟨l, hl, e, he⟩ := h
    rcases List.mem_cons.mp hl with rfl | hmem
    · exact ⟨e, by simp [mapExcept, he]⟩
    · cases hfa : f a with
      | error e2 => exact ⟨e2, by simp [mapExcept, hfa]⟩
      | ok b =>
        obtain ⟨e3, he3⟩ := ih ⟨l, hmem, e, he⟩
        exact ⟨e3, by simp [mapExcept, hfa, he3]⟩

/-- A successful per-key step determines the destination content at that key
from the source alone: the step read some lines, transformed all of them, and
wrote their joined form at the key. -/
theorem processKey_ok (env : TransformEnv) (dest : Store) (key : String) (d : Store)
    (h : processKey env dest key = (d, none)) :
    ∃ lines items, env.sourceGet key = Except.ok lines ∧
      mapExcept (transformLine env) lines = Except.ok items ∧
      d key = some (String.intercalate "\n" items) := by
  cases hg : env.sourceGet key with
  | error e => simp [processKey, hg] at h
  | ok lines =>
    cases hm : mapExcept (transformLine env) lines with
    | error e => simp [processKey, hg, hm] at h
    | ok items =>
      cases hput : env.putOk key with
      | false => simp [processKey, hg, hm, hput] at h
      | true =>
        cases hmet : env.metricsOk key with
        | false => simp [processKey, hg, hm, hput, hmet] at h
        | true =>
          simp only [processKey, hg, hm, hput, hmet, if_true, Prod.mk.injEq, and_true] at h
          refine ⟨lines, items, rfl, hm, ?_⟩
          rw [← h]
          simp

/-- C7: if, for the first record of a Transformer invocation, reading the
source object fails, or any of its lines fails to parse or flatten, or the
destination write fails, then the exception propagates — the invocation
fails, the remaining records are not processed, and the destination store is
unchanged: in particular the failing key was not written at all (all lines
are transformed before any write happens). -/
theorem c7_transform_failure_propagates (env : TransformEnv) (dest : Store)
    (key : String) (rest : List String)
    (h : (∃ e, env.sourceGet key = Except.error e) ∨
         (∃ lines, env.sourceGet key = Except.ok lines ∧
           ∃ line ∈ lines, ∃ e, transformLine env line = Except.error e) ∨
         env.putOk key = false) :
    ∃ e, runTransform env dest (key :: rest) = (dest, some e) := by
  have hstep : ∃ e, processKey env dest key = (dest, some e) := by
    rcases h with ⟨e, he⟩ | ⟨lines, hl, hline⟩ | hput
    · exact ⟨e, by simp [processKey, he]⟩
    · obtain ⟨e2, he2⟩ := mapExcept_error (transformLine env) lines hline
      exact ⟨e2, by simp [processKey, hl, he2]⟩
    · cases hg : env.sourceGet key with
      | error e => exact ⟨e, by simp [processKey, hg]⟩
      | ok lines =>
        cases hm : mapExcept (transformLine env) lines with
        | error e => exact ⟨e, by simp [processKey, hg, hm]⟩
        | ok items => exact ⟨"put failed", by simp [processKey, hg, hm, hput]⟩
  obtain ⟨e, he⟩ := hstep
  exact ⟨e, by simp [runTransform, he]⟩

/-- Witness for C7: a record whose single line fails `json.loads` makes the
invocation fail with the destination store untouched. -/
theorem c7_transform_failure_propagates_witness :
    ∃ e, runTransform
        ⟨fun _ => Except.ok ["bad"], fun _ => Except.error "json.loads failed",
          fun _ => "", fun _ => true, fun _ => true⟩
        (fun _ => none) ["k1"] = ((fun _ => none : Store), some e) :=
  c7_transform_failure_propagates _ (fun _ => none) "k1" []
    (Or.inr (Or.inl ⟨["bad"], rfl, "bad", List.mem_singleton.mpr rfl,
      "json.loads failed", rfl⟩))

/-- C3 fails on the code: with two records whose reads, transforms and writes
all succeed but whose metric emission raises on the first key, the invocation
fails (the error is not swallowed, so the queue will redeliver and reprocess
the already-written key) and the second record is never processed. -/
theorem c3_counterexample_metrics :
    (runTransform
        ⟨fun _ => Except.ok ["line"], fun _ => Except.ok (J.obj [("a", J.num 1)]),
          fun _ => "out", fun _ => true, fun k => !(k == "k1")⟩
        (fun _ => none) ["k1", "k2"]).2 = some "put_metric_data failed" ∧
    (runTransform
        ⟨fun _ => Except.ok ["line"], fun _ => Except.ok (J.obj [("a", J.num 1)]),
          fun _ => "out", fun _ => true, fun k => !(k == "k1")⟩
        (fun _ => none) ["k1", "k2"]).1 "k2" = none ∧
    (runTransform
        ⟨fun _ => Except.ok ["line"], fun _ => Except.ok (J.obj [("a", J.num 1)]),
          fun _ => "out", fun _ => true, fun k => !(k == "k1")⟩
        (fun _ => none) ["k1", "k2"]).1 "k1" = some "out" :=
  ⟨rfl, rfl, rfl⟩

/-- C3 amended: when a record's read, transform and write succeed but the
subsequent `put_metric_data` raises, the exception propagates: the invocation
fails with that error, the remaining records of the batch are not processed,
and only the completed write persists. -/
theorem c3_metrics_failure_escalates (env : TransformEnv) (dest : Store)
    (key : String) (rest : List String) (lines items : List String)
    (hget : env.sourceGet key = Except.ok lines)
    (hmap : mapExcept (transformLine env) lines = Except.ok items)
    (hput : env.putOk key = true) (hmet : env.metricsOk key = false) :
    runTransform env dest (key :: rest) =
      ((fun k => if k = key then some (String.intercalate "\n" items) else dest k),
        some "put_metric_data failed") := by
  have hp : processKey env dest key =
      ((fun k => if k = key then some (String.intercalate "\n" items) else dest k),
        some "put_metric_data failed") := by
    simp [processKey, hget, hmap, hput, hmet]
  simp [runTransform, hp]

/-- Witness for the amended C3: the concrete two-record batch of the
counterexample, stopped by the metrics failure right after the first write. -/
theorem c3_metrics_failure_escalates_witness :
    runTransform
        ⟨fun _ => Except.ok ["line"], fun _ => Except.ok (J.obj [("a", J.num 1)]),
          fun _ => "out", fun _ => true, fun k => !(k == "k1")⟩
        (fun _ => none) ["k1", "k2"] =
      ((fun k => if k = "k1" then some (String.intercalate "\n" ["out"])
          else (fun _ => none : Store) k),
        some "put_metric_data failed") :=
  c3_metrics_failure_escalates _ (fun _ => none) "k1" ["k2"] ["line"] ["out"]
    rfl rfl rfl rfl

/-- C8: the Transformer's write is a deterministic full overwrite — two
successful runs of the per-key step on the same key against the same source,
from any two prior destination states, leave byte-identical content at that
key (so re-running a key reproduces, never appends), and the key is indeed
written. -/
theorem c8_overwrite_idempotent (env : TransformEnv) (dest dest2 d1 d2 : Store)
    (key : String) (h1 : processKey env dest key = (d1, none))
    (h2 : processKey env dest2 key = (d2, none)) :
    d1 key = d2 key ∧ d1 key ≠ none := by
  obtain ⟨l1, i1, hg1, hm1, hd1⟩ := processKey_ok env dest key d1 h1
  obtain ⟨l2, i2, hg2, hm2, hd2⟩ := processKey_ok env dest2 key d2 h2
  rw [hg1] at hg2
  injection hg2 with hl
  subst hl
  rw [hm1] at hm2
  injection hm2 with hi
  subst hi
  rw [hd1, hd2]
  exact ⟨rfl, by simp⟩

/-- Witness for C8: running the per-key step on key `k` over an empty
destination and over a destination holding older content leaves the same
bytes at `k` both times. -/
theorem c8_overwrite_idempotent_witness :
    ((fun k => if k = "k" then some (String.intercalate "\n" ["rec"]) else none) : Store) "k" =
      ((fun k => if k = "k" then some (String.intercalate "\n" ["rec"])
          else some "old") : Store) "k" ∧
    ((fun k => if k = "k" then some (String.intercalate "\n" ["rec"]) else none) : Store) "k" ≠
      none :=
  c8_overwrite_idempotent
    ⟨fun _ => Except.ok ["line"], fun _ => Except.ok (J.obj [("a", J.num 1)]),
      fun _ => "rec", fun _ => true, fun _ => true⟩
    (fun _ => none) (fun _ => some "old") _ _ "k" rfl rfl

/-- Joining a path extended by one key: the separator is inserted exactly
when the prefix path is non-empty. -/
theorem joinDot_append_last (pre : List String) (k : String) :
    joinDot (pre ++ [k]) = if pre = [] then k else joinDot pre ++ "." ++ k := by
  induction pre with
  | nil => simp [joinDot]
  | cons x xs ih =>
    cases xs with
    | nil => simp [joinDot]
    | cons y ys =>
      have h2 : joinDot (x :: ((y :: ys) ++ [k])) = x ++ "." ++ joinDot ((y :: ys) ++ [k]) := by
        rw [List.cons_append]
        rfl
      calc joinDot ((x :: y :: ys) ++ [k])
          = x ++ "." ++ joinDot ((y :: ys) ++ [k]) := h2
        _ = x ++ "." ++ (if (y :: ys) = [] then k else joinDot (y :: ys) ++ "." ++ k) := by
            rw [ih]
        _ = if (x :: y :: ys) = [] then k else joinDot (x :: y :: ys) ++ "." ++ k := by
            simp [joinDot, String.append_assoc]

/-- The join of a non-empty path of non-empty keys is a non-empty string. -/
theorem joinDot_ne_empty (pre : List String) (hne : pre ≠ [])
    (h : ∀ s ∈ pre, s ≠ "") : joinDot pre ≠ "" := by
  cases pre with
  | nil => exact absurd rfl hne
  | cons x xs =>
    cases xs with
    | nil =>
      simp only [joinDot]
      exact h x (List.mem_singleton.mpr rfl)
    | cons y ys =>
      simp only [joinDot]
      intro hcontra
      have hlen := congrArg String.length hcontra
      simp only [String.length_append] at hlen
      have hdot : String.length "." = 1 := rfl
      have hempty : String.length "" = 0 := rfl
      omega

/-- Building a Python dict from pairs with pairwise-distinct keys keeps all
the pairs, in order. -/
theorem pyDict_nodup (items : List (String × J))
    (h : (items.map Prod.fst).Nodup) : pyDict items = items := by
  suffices haux : ∀ (its acc : List (String × J)), ((acc ++ its).map Prod.fst).Nodup →
      its.foldl (fun a p => dictInsert a p.1 p.2) acc = acc ++ its by
    have := haux items [] (by simpa using h)
    simpa [pyDict] using this
  intro its
  induction its with
  | nil => intro acc _; simp
  | cons p rest ih =>
    intro acc hacc
    have hnotin : p.1 ∉ acc.map Prod.fst := by
      rw [List.map_append] at hacc
      have hd := (List.nodup_append.mp hacc).2.2
      intro hmem
      exact hd hmem (by simp)
    have hany : ¬ ((acc.any fun q => decide (q.1 = p.1)) = true) := by
      rw [List.any_eq_true]
      rintro ⟨q, hq, hq1⟩
      rw [decide_eq_true_eq] at hq1
      exact hnotin (hq1 ▸ List.mem_map_of_mem Prod.fst hq)
    have hstep : dictInsert acc p.1 p.2 = acc ++ [p] := by
      rw [dictInsert, if_neg hany]
    rw [List.foldl_cons, hstep, ih (acc ++ [p]) (by simpa using hacc)]
    simp

/-- Looking up a key of an association list with pairwise-distinct keys
finds its value. -/
theorem lookup_of_mem_nodup (l : List (String × J)) (k : String) (v : J)
    (hmem : (k, v) ∈ l) (hnd : (l.map Prod.fst).Nodup) :
    List.lookup k l = some v := by
  induction l with
  | nil => cases hmem
  | cons p rest ih =>
    obtain ⟨pk, pv⟩ := p
    rcases List.mem_cons.mp hmem with heq | hmem2
    · rw [show pk = k from (Prod.mk.injEq _ _ _ _ |>.mp heq.symm).1,
        show pv = v from (Prod.mk.injEq _ _ _ _ |>.mp heq.symm).2]
      simp [List.lookup]
    · have hknotin : pk ∉ rest.map Prod.fst := (List.nodup_cons.mp hnd).1
      have hk : k ≠ pk := by
        intro hcontra
        subst hcontra
        exact hknotin (List.mem_map_of_mem Prod.fst hmem2)
      have hbeq : (k == pk) = false := beq_eq_false_iff_ne.mpr hk
      simp only [List.lookup, hbeq]
      exact ih hmem2 (List.nodup_cons.mp hnd).2

mutual
/-- The items `flatten` collects under the joined prefix `pre` are exactly
the spec's leaves of the mapping, each under its joined path — provided all
keys on the way are non-empty (so Python's truthiness test on `parent_key`
agrees with path emptiness). -/
theorem flattenItems_eq_specL (d : List (String × J)) (pre : List String)
    (hpre : ∀ s ∈ pre, s ≠ "") (hkeys : keysNonemptyL d = true) :
    flattenItems (joinDot pre) d =
      (specLeavesL d pre).map (fun pv => (joinDot pv.1, pv.2)) := by
  match d with
  | [] => simp [flattenItems, specLeavesL]
  | (k, v) :: rest =>
    simp only [keysNonemptyL, Bool.and_eq_true, Bool.not_eq_true',
      decide_eq_false_iff_not] at hkeys
    obtain ⟨⟨hk1, hk2⟩, hk3⟩ := hkeys
    have hpre2 : ∀ s ∈ pre ++ [k], s ≠ "" := by
      intro s hs
      rcases List.mem_append.mp hs with h | h
      · exact hpre s h
      · rw [List.mem_singleton] at h
        subst h
        exact hk1
    have hnew : (if joinDot pre = "" then k else joinDot pre ++ "." ++ k)
        = joinDot (pre ++ [k]) := by
      rw [joinDot_append_last]
      by_cases hp : pre = []
      · subst hp
        simp [joinDot]
      · have hjd := joinDot_ne_empty pre hp hpre
        simp [hp, hjd]
    simp only [flattenItems, specLeavesL]
    rw [hnew, flattenOne_eq_specJ v (pre ++ [k]) (by simp) hpre2 hk2,
      flattenItems_eq_specL rest pre hpre hk3]
    simp [List.map_append]

/-- One value's contribution to `flatten` under a joined non-empty path is
exactly its spec leaves under that path. -/
theorem flattenOne_eq_specJ (v : J) (pre : List String)
    (_hne : pre ≠ []) (hpre : ∀ s ∈ pre, s ≠ "") (hkeys : keysNonemptyJ v = true) :
    flattenOne (joinDot pre) v =
      (specLeavesJ v pre).map (fun pv => (joinDot pv.1, pv.2)) := by
  match v with
  | J.obj kvs =>
    simp only [flattenOne, specLeavesJ]
    exact flattenItems_eq_specL kvs pre hpre hkeys
  | J.num n => simp [flattenOne, specLeavesJ]
  | J.str s => simp [flattenOne, specLeavesJ]
  | J.bool b => simp [flattenOne, specLeavesJ]
  | J.null => simp [flattenOne, specLeavesJ]
  | J.arr a => simp [flattenOne, specLeavesJ]
end

mutual
/-- Spec leaves of a mapping are non-mapping values. -/
theorem specLeavesL_not_obj (d : List (String × J)) (pre : List String) :
    ∀ pv ∈ specLeavesL d pre, isObj pv.2 = false := by
  match d with
  | [] =>
    intro pv hpv
    simp [specLeavesL] at hpv
  | (k, v) :: rest =>
    intro pv hpv
    simp only [specLeavesL] at hpv
    rcases List.mem_append.mp hpv with h | h
    · exact specLeavesJ_not_obj v (pre ++ [k]) pv h
    · exact specLeavesL_not_obj rest pre pv h

/-- Spec leaves of one value are non-mapping values. -/
theorem specLeavesJ_not_obj (v : J) (pre : List String) :
    ∀ pv ∈ specLeavesJ v pre, isObj pv.2 = false := by
  match v with
  | J.obj kvs =>
    intro pv hpv
    simp only [specLeavesJ] at hpv
    exact specLeavesL_not_obj kvs pre pv hpv
  | J.num n =>
    intro pv hpv
    rw [List.mem_singleton.mp hpv]
    rfl
  | J.str s =>
    intro pv hpv
    rw [List.mem_singleton.mp hpv]
    rfl
  | J.bool b =>
    intro pv hpv
    rw [List.mem_singleton.mp hpv]
    rfl
  | J.null =>
    intro pv hpv
    rw [List.mem_singleton.mp hpv]
    rfl
  | J.arr a =>
    intro pv hpv
    rw [List.mem_singleton.mp hpv]
    rfl
end

/-- A flat mapping's items are collected unchanged: with the empty
`parent_key` every key stays as it is and every value is a leaf. -/
theorem flattenItems_flat : ∀ (m : List (String × J)),
    (∀ kv ∈ m, isObj kv.2 = false) → flattenItems "" m = m := by
  intro m
  induction m with
  | nil => intro _; rfl
  | cons kv rest ih =>
    intro hflat
    obtain ⟨k, v⟩ := kv
    have hv : isObj v = false := hflat (k, v) (List.mem_cons_self _ _)
    have hone : flattenOne k v = [(k, v)] := by
      cases v with
      | obj kvs => simp [isObj] at hv
      | num n => rfl
      | str s => rfl
      | bool b => rfl
      | null => rfl
      | arr a => rfl
    have hrest : ∀ x ∈ rest, isObj x.2 = false :=
      fun x hx => hflat x (List.mem_cons_of_mem _ hx)
    simp [flattenItems, hone, ih hrest]

/-- C5 fails on the code at two concrete inputs.  Key collision: in the
mapping with entries `a ↦ (b ↦ 1)` and `a.b ↦ 2`, the leaf `1` has path
`a, b`, whose joined key `a.b` holds `2` in the flattened dict, not `1`.
Empty key: in the mapping with the single entry `"" ↦ (b ↦ 1)`, the leaf `1`
has joined path key `.b`, but the flattened dict has no such key (Python's
truthiness check drops the empty parent key and names it `b` instead). -/
theorem c5_counterexample_flatten :
    (["a", "b"], J.num 1) ∈
      specLeavesL [("a", J.obj [("b", J.num 1)]), ("a.b", J.num 2)] [] ∧
    joinDot ["a", "b"] = "a.b" ∧
    List.lookup "a.b"
      (flatten [("a", J.obj [("b", J.num 1)]), ("a.b", J.num 2)] "") = some (J.num 2) ∧
    J.num 2 ≠ J.num 1 ∧
    (["", "b"], J.num 1) ∈ specLeavesL [("", J.obj [("b", J.num 1)])] [] ∧
    joinDot ["", "b"] = ".b" ∧
    List.lookup ".b" (flatten [("", J.obj [("b", J.num 1)])] "") = none := by
  refine ⟨List.Mem.head _, rfl, rfl, ?_, List.Mem.head _, rfl, rfl⟩
  intro h
  injection h with h1
  exact absurd h1 (by decide)

/-- C5 amended: for a nested mapping all of whose keys are non-empty and
whose leaf paths join to pairwise-distinct compound keys, `flatten` is a
single-level mapping (no value is a mapping) in which every leaf value
appears under the dot-join of its ancestor-key path; on the spec's fixture
it returns exactly the expected flat dict. -/
theorem c5_flatten_leaf_paths (d : List (String × J))
    (hkeys : keysNonemptyL d = true)
    (hnd : ((specLeavesL d []).map (fun pv => joinDot pv.1)).Nodup) :
    (∀ pv ∈ specLeavesL d [],
      List.lookup (joinDot pv.1) (flatten d "") = some pv.2) ∧
    (∀ q ∈ flatten d "", isObj q.2 = false) ∧
    flatten [("a", J.obj [("b", J.num 1), ("c", J.obj [("d", J.num 2)])])] "" =
      [("a.b", J.num 1), ("a.c.d", J.num 2)] := by
  have hitems : flattenItems "" d
      = (specLeavesL d []).map (fun pv => (joinDot pv.1, pv.2)) :=
    flattenItems_eq_specL d [] (by intro s hs; cases hs) hkeys
  have hfst : ((specLeavesL d []).map (fun pv => (joinDot pv.1, pv.2))).map Prod.fst
      = (specLeavesL d []).map (fun pv => joinDot pv.1) := by
    rw [List.map_map]
    rfl
  have hnd2 : ((flattenItems "" d).map Prod.fst).Nodup := by
    rw [hitems, hfst]
    exact hnd
  have hpyd : flatten d "" = flattenItems "" d := by
    rw [flatten]
    exact pyDict_nodup _ hnd2
  refine ⟨?_, ?_, rfl⟩
  · intro pv hpv
    rw [hpyd, hitems]
    exact lookup_of_mem_nodup _ _ _ (List.mem_map_of_mem _ hpv) (by rw [hfst]; exact hnd)
  · intro q hq
    rw [hpyd, hitems] at hq
    obtain ⟨pv, hpv, hq2⟩ := List.mem_map.mp hq
    rw [← hq2]
    exact specLeavesL_not_obj d [] pv hpv

/-- Witness for the amended C5 on the spec's fixture: the leaf `1` at path
`a, b` is found under the key `a.b` in the flattened dict. -/
theorem c5_flatten_leaf_paths_witness :
    List.lookup "a.b"
      (flatten [("a", J.obj [("b", J.num 1), ("c", J.obj [("d", J.num 2)])])] "") =
      some (J.num 1) :=
  (c5_flatten_leaf_paths
      [("a", J.obj [("b", J.num 1), ("c", J.obj [("d", J.num 2)])])]
      rfl (by decide)).1 (["a", "b"], J.num 1) (List.Mem.head _)

/-- C9: on an already-flat mapping (no value is itself a mapping), `flatten`
is the identity, and hence idempotent: flattening twice equals flattening
once. -/
theorem c9_flatten_idempotent_flat (m : List (String × J))
    (hflat : ∀ kv ∈ m, isObj kv.2 = false) (hnd : (m.map Prod.fst).Nodup) :
    flatten m "" = m ∧ flatten (flatten m "") "" = flatten m "" := by
  have h1 : flatten m "" = m := by
    rw [flatten, flattenItems_flat m hflat]
    exact pyDict_nodup m hnd
  constructor
  · exact h1
  · rw [h1]
    exact h1

/-- Witness for C9 on a concrete flat mapping. -/
theorem c9_flatten_idempotent_flat_witness :
    flatten [("x", J.num 3), ("y", J.str "s")] "" = [("x", J.num 3), ("y", J.str "s")] ∧
    flatten (flatten [("x", J.num 3), ("y", J.str "s")] "") "" =
      flatten [("x", J.num 3), ("y", J.str "s")] "" :=
  c9_flatten_idempotent_flat [("x", J.num 3), ("y", J.str "s")]
    (by decide) (by decide)
